import Mathlib

/-!
Verification of the attached-filters model (src/src/models/attachedfiltersmodel.cpp).

The C++ class `AttachedFiltersModel` keeps two parallel sequences: a UI-facing
list of filter metadata pointers (`m_metaList`, a null pointer meaning
"unclassified") and a map from UI rows to positions in the engine's filter
chain (`m_mltIndexMap`).  The engine chain itself (an MLT producer's attached
filters) is modelled as a plain list of filter records.  Each mutating member
function is translated into a pure function on a `Model` record; operations
whose C++ behaviour is undefined for some inputs (out-of-range `QList`
indexing) return `Option`, with `none` marking the undefined path.
-/

namespace AttachedFiltersModel

/-- Metadata of a filter as far as ordering is concerned (`QmlMetadata`):
the two classification flags read by `sortIsLess`. -/
structure Metadata where
  needsGPU : Bool
  isAudio : Bool
deriving DecidableEq, Repr

/-- An engine-side filter handle (`Mlt::Filter`): an identity, the "disable"
property, and the fields `reset` reads (`is_valid`, the `_loader` property). -/
structure Filter where
  fid : Nat
  disable : Bool
  valid : Bool
  isLoader : Bool
deriving DecidableEq, Repr

/-- Translation of the file-static `sortIsLess(lhs, rhs)`: sort order is
GPU, Video, Audio; a null metadata pointer is treated as video. -/
def sortIsLess : Option Metadata → Option Metadata → Bool
  | none, none => false
  | none, some rhs => rhs.needsGPU
  | some lhs, none => lhs.isAudio
  | some lhs, some rhs =>
    if rhs.needsGPU && !lhs.needsGPU then true
    else if !rhs.isAudio && lhs.isAudio then true
    else false

/-- The model state: `m_metaList`, `m_mltIndexMap`, the producer's filter
chain, the drag-and-drop cache `m_dropRow`, and the producer validity test
`m_producer && m_producer->is_valid()`. -/
structure Model where
  metaList : List (Option Metadata)
  mltIndexMap : List Nat
  chain : List Filter
  dropRow : Int
  producerValid : Bool
deriving DecidableEq, Repr

/-- Engine filter-chain move, an external MLT primitive.  Modelled from the
spec (§4.4, §6): "removing from source position and inserting at destination,
shifting intervening entries". -/
def moveFilter (l : List Filter) (src dst : Nat) : List Filter :=
  match l[src]? with
  | none => l
  | some x => (l.eraseIdx src).insertIdx dst x

/-- `QList::move(from, to)`: remove the element at `src` and insert it at
position `dst` of the resulting list.  `none` when an index is out of range
(undefined behaviour in Qt). -/
def listMove (l : List α) (src dst : Nat) : Option (List α) :=
  match l[src]? with
  | none => none
  | some x => if dst ≤ (l.eraseIdx src).length then some ((l.eraseIdx src).insertIdx dst x) else none

/-- The backward scan in `add`: `for (i = count-1; i >= 0; i--) if
(!sortIsLess(m_metaList[i], meta)) { insertIndex = i+1; break; }`.
The fuel argument is `i + 1` for the current loop index `i`; `0` means the
loop ran past the front, leaving the default `insertIndex = 0`. -/
def insertPosFrom (l : List (Option Metadata)) (meta : Metadata) : Nat → Nat
  | 0 => 0
  | i + 1 => if !(sortIsLess (l.getD i none) (some meta)) then i + 1 else insertPosFrom l meta i

/-- UI insertion position computed by `add`. -/
def insertPos (l : List (Option Metadata)) (meta : Metadata) : Nat :=
  insertPosFrom l meta l.length

/-- `AttachedFiltersModel::add(meta)`.  `valid` is the engine's verdict on the
newly constructed `Mlt::Filter` (`filter->is_valid()`), `f` the new handle.
Returns the new state and the C++ return value (`insertIndex`, `-1` when the
filter failed to load). -/
def add (m : Model) (meta : Metadata) (f : Filter) (valid : Bool) : Option (Model × Int) :=
  if valid then
    let insertIndex := insertPos m.metaList meta
    let mltIndexOpt : Option Nat :=
      if m.mltIndexMap.length = 0 then some 0
      else if insertIndex = 0 then m.mltIndexMap[0]?
      else (m.mltIndexMap[insertIndex - 1]?).map (· + 1)
    match mltIndexOpt with
    | none => none
    | some mltIndex =>
      let chain1 := m.chain ++ [f]
      let chain2 := moveFilter chain1 (chain1.length - 1) mltIndex
      let map1 := m.mltIndexMap.map (fun j => if mltIndex ≤ j then j + 1 else j)
      some ({ m with
                chain := chain2
                mltIndexMap := map1.insertIdx insertIndex mltIndex
                metaList := m.metaList.insertIdx insertIndex (some meta) },
            (insertIndex : Int))
  else
    some (m, -1)

/-- `AttachedFiltersModel::remove(row)`.  A row `≥ m_metaList.count()` is a
logged no-op; a negative row slips past that guard and reaches
`m_mltIndexMap[row]`, an out-of-range `QList` access (`none`). -/
def remove (m : Model) (row : Int) : Option Model :=
  if (m.metaList.length : Int) ≤ row then some m
  else if 0 ≤ row then
    match m.mltIndexMap[row.toNat]? with
    | none => none
    | some mltIndex =>
      some { m with
               chain := m.chain.eraseIdx mltIndex
               mltIndexMap := (m.mltIndexMap.eraseIdx row.toNat).map
                 (fun j => if mltIndex < j then j - 1 else j)
               metaList := m.metaList.eraseIdx row.toNat }
  else none

/-- `AttachedFiltersModel::moveRows` for `sourceParent == destinationParent`
and `count == 1` (the only supported call shape; other shapes return false).
`createIndex(r, 0).isValid()` is `r ≥ 0`; `beginMoveRows` refuses exactly a
same-parent move with `destinationRow` in `[sourceRow, sourceRow + 1]`.
Returns the new state and the C++ return value, `none` on out-of-range
`QList` access. -/
def moveRows (m : Model) (sourceRow destinationRow : Int) : Option (Model × Bool) :=
  if !m.producerValid then some (m, false)
  else if sourceRow < 0 ∨ destinationRow < 0 then some (m, false)
  else if sourceRow ≤ destinationRow ∧ destinationRow ≤ sourceRow + 1 then some (m, false)
  else
    let destRow := if sourceRow < destinationRow then destinationRow - 1 else destinationRow
    let src := sourceRow.toNat
    let dst := destRow.toNat
    match m.mltIndexMap[src]?, m.mltIndexMap[dst]? with
    | some mltSrcIndex, some mltDstIndex =>
      let map1 := (m.mltIndexMap.eraseIdx src).map (fun j =>
        let j1 := if mltSrcIndex < j then j - 1 else j
        if mltDstIndex ≤ j1 then j1 + 1 else j1)
      match listMove m.metaList src dst with
      | none => none
      | some metaMoved =>
        if dst ≤ map1.length then
          some ({ m with
                    chain := moveFilter m.chain mltSrcIndex mltDstIndex
                    mltIndexMap := map1.insertIdx dst mltDstIndex
                    metaList := metaMoved },
                true)
        else none
    | _, _ => none

/-- `AttachedFiltersModel::move(fromRow, toRow)`: rejects negative rows, and
when moving down targets one past the destination before delegating to
`moveRows`. -/
def move (m : Model) (fromRow toRow : Int) : Option (Model × Bool) :=
  if fromRow < 0 ∨ toRow < 0 then some (m, false)
  else moveRows m fromRow (if fromRow < toRow then toRow + 1 else toRow)

/-- `AttachedFiltersModel::insertRows(row, count)`: caches the drop row when
none is pending. -/
def insertRows (m : Model) (row : Int) : Model × Bool :=
  if m.producerValid then
    (if m.dropRow = -1 then { m with dropRow := row } else m, true)
  else (m, false)

/-- `AttachedFiltersModel::removeRows(row, count)`: with a pending drop row
different from `row`, performs the single `moveRows(row, m_dropRow)` and
clears the cache; otherwise returns false and leaves the cache alone. -/
def removeRows (m : Model) (row : Int) : Option (Model × Bool) :=
  if m.producerValid ∧ 0 ≤ m.dropRow ∧ row ≠ m.dropRow then
    match moveRows m row m.dropRow with
    | none => none
    | some (m1, result) => some ({ m1 with dropRow := -1 }, result)
  else some (m, false)

/-- Flip of the engine "disable" property:
`filter->set("disable", !filter->get_int("disable"))`. -/
def flipDisable (f : Filter) : Filter :=
  { f with disable := !f.disable }

/-- `AttachedFiltersModel::setData` restricted to the `Qt::CheckStateRole`
branch (`checkStateRole = false` is the fall-through returning false).
`getFilter(row)` yields a handle only when the producer is valid and
`row < m_mltIndexMap.count()`; a negative row then hits `m_mltIndexMap[row]`,
an out-of-range `QList` access (`none`).  An in-range row whose engine index
points outside the chain yields an invalid handle and nothing is flipped. -/
def setData (m : Model) (row : Int) (checkStateRole : Bool) : Option (Model × Bool) :=
  if checkStateRole then
    if m.producerValid ∧ row < (m.mltIndexMap.length : Int) then
      if 0 ≤ row then
        match m.mltIndexMap[row.toNat]? with
        | none => none
        | some mltIndex =>
          match m.chain[mltIndex]? with
          | some f => some ({ m with chain := m.chain.set mltIndex (flipDisable f) }, true)
          | none => some (m, true)
      else none
    else some (m, true)
  else some (m, false)

/-- Change notifications observable around `reset`. -/
inductive Event where
  | beginReset
  | endReset
  | readyChanged
deriving DecidableEq, Repr

/-- The inner backward scan of `reset`: starting from `newIndex = count`, walk
`j` from `count - 1` down while `sortIsLess(m_metaList[j], newMeta)` holds,
recording each such `j`; stop at the first `j` where it fails.  The first fuel
argument is the current `newIndex`, the second is `j + 1`. -/
def resetPosFrom (l : List (Option Metadata)) (meta : Option Metadata) : Nat → Nat → Nat
  | cur, 0 => cur
  | cur, j + 1 =>
    if sortIsLess (l.getD j none) meta then resetPosFrom l meta j j else cur

/-- Insertion position used by the `reset` scan. -/
def resetPos (l : List (Option Metadata)) (meta : Option Metadata) : Nat :=
  resetPosFrom l meta l.length l.length

/-- The `reset` loop over the engine chain: skip invalid and `_loader`
filters, classify the rest (`classify` models
`FilterController::metadataForService`) and insert descriptor and engine
index at the scanned position. -/
def resetScanAux (classify : Filter → Option Metadata) :
    List Filter → Nat → List (Option Metadata) → List Nat →
    List (Option Metadata) × List Nat
  | [], _, ml, mm => (ml, mm)
  | f :: rest, i, ml, mm =>
    if f.valid && !f.isLoader then
      let newMeta := classify f
      let pos := resetPos ml newMeta
      resetScanAux classify rest (i + 1) (ml.insertIdx pos newMeta) (mm.insertIdx pos i)
    else
      resetScanAux classify rest (i + 1) ml mm

/-- `AttachedFiltersModel::reset(producer)`.  `newValid` is the validity of
the producer installed by `m_producer.reset(...)`, `isPlaylist` the value of
`MLT.isPlaylist()`, `newChain` the installed producer's filter chain.
Returns the new state together with the emitted notifications, in order. -/
def reset (m : Model) (newValid isPlaylist : Bool) (newChain : List Filter)
    (classify : Filter → Option Metadata) : Model × List Event :=
  let m1 := { m with
                producerValid := newValid
                chain := newChain
                metaList := []
                mltIndexMap := [] }
  if isPlaylist then (m1, [Event.beginReset])
  else if newValid then
    let scanned := resetScanAux classify newChain 0 [] []
    ({ m1 with metaList := scanned.1, mltIndexMap := scanned.2 },
     [Event.beginReset, Event.endReset, Event.readyChanged])
  else (m1, [Event.beginReset, Event.endReset, Event.readyChanged])

/-! Spec-side definitions: written from the specification's wording, to be
compared with the definitions translated from the source. -/

/-- The category sort policy as the spec words it (§4.2), rules in order:
both absent: not-less; `a` absent: less iff `b` needsGPU; `b` absent: less iff
`a` isAudio; both present: less if `b` needsGPU and `a` does not, else less if
`a` isAudio and `b` is not; otherwise not less. -/
def specSortIsLess (a b : Option Metadata) : Bool :=
  match a, b with
  | none, none => false
  | none, some rb => rb.needsGPU
  | some la, none => la.isAudio
  | some la, some rb =>
    if rb.needsGPU && !la.needsGPU then true
    else if la.isAudio && !rb.isAudio then true
    else false

/-- UI insertion position as the spec words it (§4.4 `add`): one past the
last existing entry that is not `sortIsLess`-than the new entry, defaulting
to position 0 if none is found.  Equivalently, the length of the list minus
the length of its longest `sortIsLess`-than-the-new-entry suffix: the entry
just before that suffix is the last not-less entry. -/
def specInsertPos (l : List (Option Metadata)) (meta : Metadata) : Nat :=
  l.length - (l.reverse.takeWhile (fun x => sortIsLess x (some meta))).length

/-- Target engine index as the spec words it (§4.4 `add`): 0 when the map is
empty; the engine index currently at UI position 0 when inserting at UI
position 0; otherwise the preceding UI entry's engine index plus 1. -/
def specMltIndex (map : List Nat) (pos : Nat) : Nat :=
  if map = [] then 0
  else if pos = 0 then map.headD 0
  else map.getD (pos - 1) 0 + 1

/-- Index-map recomputation for a move as the spec words it (§4.4 `moveRow`):
remove the source row's entry; decrement every remaining entry strictly
greater than the original source engine index; increment every entry that is
then greater than or equal to the destination engine index; insert the
destination engine index at the destination row. -/
def specMoveRemap (map : List Nat) (src dst mltSrc mltDst : Nat) : List Nat :=
  (((map.eraseIdx src).map fun j =>
      let j1 := if mltSrc < j then j - 1 else j
      if mltDst ≤ j1 then j1 + 1 else j1).insertIdx dst mltDst)

/-! Concrete states used by witnesses, counterexamples and scenarios. -/

/-- A GPU-needing descriptor. -/
def exGPU : Metadata := ⟨true, false⟩

/-- An ordinary video descriptor. -/
def exVideo : Metadata := ⟨false, false⟩

/-- An audio descriptor. -/
def exAudio : Metadata := ⟨false, true⟩

/-- A valid, non-loader engine filter with identity `n`. -/
def exFil (n : Nat) : Filter := ⟨n, false, true, false⟩

/-- Three-row state: rows A(GPU), B(video), C(audio) at engine indices
0, 1, 2, engine chain holding the filters with matching identities. -/
def exModel3 : Model :=
  ⟨[some exGPU, some exVideo, some exAudio], [0, 1, 2], [exFil 0, exFil 1, exFil 2], -1, true⟩

/-- One-row state. -/
def exModel1 : Model := ⟨[some exGPU], [0], [exFil 0], -1, true⟩

/-- Three-row state with a pending drag-and-drop row cached. -/
def exDropModel : Model := { exModel3 with dropRow := 2 }

/-- A concrete classification service for `reset` scenarios. -/
def exClassify : Filter → Option Metadata :=
  fun f => if f.fid = 0 then some exAudio else some exVideo

/-- State reached from `exModel3` by toggling row 1's checkbox. -/
def exFlipped : Model :=
  { exModel3 with chain := [exFil 0, flipDisable (exFil 1), exFil 2] }

/-- State reached from `exModel3` by `add exVideo` (a filter with identity
7): the video descriptor lands at row 2, engine index 2. -/
def exAdded : Model :=
  ⟨[some exGPU, some exVideo, some exVideo, some exAudio], [0, 1, 2, 3],
   [exFil 0, exFil 1, exFil 7, exFil 2], -1, true⟩

/-! Helper lemmas. -/

theorem insertPosFrom_le (l : List (Option Metadata)) (meta : Metadata) :
    ∀ n, insertPosFrom l meta n ≤ n := by
  intro n
  induction n with
  | zero => simp [insertPosFrom]
  | succ k ih =>
    rw [insertPosFrom]
    split
    · exact Nat.le_refl _
    · exact Nat.le_trans ih (Nat.le_succ k)

theorem insertPos_le (l : List (Option Metadata)) (meta : Metadata) :
    insertPos l meta ≤ l.length :=
  insertPosFrom_le l meta l.length

theorem insertPosFrom_append (l : List (Option Metadata)) (x : Option Metadata)
    (meta : Metadata) : ∀ n, n ≤ l.length →
    insertPosFrom (l ++ [x]) meta n = insertPosFrom l meta n := by
  intro n
  induction n with
  | zero => intro _; rfl
  | succ k ih =>
    intro hk
    rw [insertPosFrom, insertPosFrom]
    have hgd : (l ++ [x]).getD k none = l.getD k none := by
      have hk' : k < l.length := hk
      simp [List.getD, List.getElem?_append_left hk']
    rw [hgd]
    split
    · rfl
    · exact ih (Nat.le_of_succ_le hk)

theorem insertPos_eq_specInsertPos (l : List (Option Metadata)) (meta : Metadata) :
    insertPos l meta = specInsertPos l meta := by
  induction l using List.reverseRecOn with
  | nil => rfl
  | append_singleton l x ih =>
    unfold insertPos specInsertPos
    rw [List.reverse_append, List.reverse_singleton, List.singleton_append,
      List.takeWhile_cons]
    have hlen : (l ++ [x]).length = l.length + 1 := by simp
    rw [hlen, insertPosFrom]
    have hgd : (l ++ [x]).getD l.length none = x := by
      simp [List.getD, List.getElem?_concat_length]
    rw [hgd]
    have hrun : (l.reverse.takeWhile fun y => sortIsLess y (some meta)).length ≤ l.length := by
      have := (List.takeWhile_sublist (l := l.reverse)
        (fun y => sortIsLess y (some meta))).length_le
      simpa using this
    by_cases hx : sortIsLess x (some meta) = true
    · rw [if_pos hx, if_neg (by simp [hx])]
      rw [insertPosFrom_append l x meta l.length (Nat.le_refl _)]
      rw [show insertPosFrom l meta l.length = insertPos l meta from rfl, ih]
      unfold specInsertPos
      simp only [List.length_cons]
      omega
    · rw [if_neg hx, if_pos (by simp [hx])]
      simp

theorem length_listMove {α : Type} (l out : List α) (src dst : Nat)
    (h : listMove l src dst = some out) : out.length = l.length := by
  have hsrc : src < l.length := by
    by_contra hge
    have hnone : l[src]? = none := List.getElem?_eq_none (Nat.le_of_not_lt hge)
    simp [listMove, hnone] at h
  have hget : l[src]? = some l[src] := List.getElem?_eq_getElem hsrc
  simp only [listMove, hget] at h
  split at h
  · rename_i hdst
    simp only [Option.some.injEq] at h
    subst h
    have hel : (l.eraseIdx src).length = l.length - 1 :=
      List.length_eraseIdx_of_lt hsrc
    have hil := List.length_insertIdx (a := l[src]) dst (l.eraseIdx src) hdst
    omega
  · exact absurd h (by simp)

theorem eraseIdx_concat {α : Type} (l : List α) (x : α) :
    (l ++ [x]).eraseIdx l.length = l := by
  rw [List.eraseIdx_append_of_length_le (Nat.le_refl _)]
  simp

theorem add_mltIndexOpt_eq (m : Model) (meta : Metadata)
    (h : m.metaList.length = m.mltIndexMap.length) :
    (if m.mltIndexMap.length = 0 then some 0
     else if insertPos m.metaList meta = 0 then m.mltIndexMap[0]?
     else (m.mltIndexMap[insertPos m.metaList meta - 1]?).map (· + 1)) =
    some (specMltIndex m.mltIndexMap (insertPos m.metaList meta)) := by
  have hple := insertPos_le m.metaList meta
  unfold specMltIndex
  by_cases h0 : m.mltIndexMap.length = 0
  · rw [if_pos h0, if_pos (List.length_eq_zero.mp h0)]
  · have hne : ¬(m.mltIndexMap = []) := fun he => h0 (by rw [he]; rfl)
    rw [if_neg h0, if_neg hne]
    by_cases hp0 : insertPos m.metaList meta = 0
    · rw [if_pos hp0, if_pos hp0]
      cases mm : m.mltIndexMap with
      | nil => exact absurd mm hne
      | cons x xs => simp [mm]
    · rw [if_neg hp0, if_neg hp0]
      have hlt : insertPos m.metaList meta - 1 < m.mltIndexMap.length := by omega
      rw [List.getElem?_eq_getElem hlt]
      simp [List.getD_eq_getElem?_getD, List.getElem?_eq_getElem hlt]

theorem specMltIndex_le_chain (m : Model) (pos : Nat)
    (hpos : pos ≤ m.mltIndexMap.length)
    (hidx : ∀ j ∈ m.mltIndexMap, j < m.chain.length) :
    specMltIndex m.mltIndexMap pos ≤ m.chain.length := by
  unfold specMltIndex
  split
  · exact Nat.zero_le _
  · rename_i hne
    have hlenpos : 0 < m.mltIndexMap.length := List.length_pos.mpr hne
    split
    · cases mm : m.mltIndexMap with
      | nil => exact absurd mm hne
      | cons x xs =>
        have hx : x ∈ m.mltIndexMap := by rw [mm]; exact List.mem_cons_self x xs
        have := hidx x hx
        simp only [mm, List.headD_cons]
        omega
    · rename_i hp0
      have hlt : pos - 1 < m.mltIndexMap.length := by omega
      have hmem : m.mltIndexMap.getD (pos - 1) 0 ∈ m.mltIndexMap := by
        rw [List.getD_eq_getElem?_getD, List.getElem?_eq_getElem hlt]
        exact List.getElem_mem hlt
      have := hidx _ hmem
      omega

theorem moveFilter_append (chain : List Filter) (f : Filter) (mlt : Nat) :
    moveFilter (chain ++ [f]) ((chain ++ [f]).length - 1) mlt =
      chain.insertIdx mlt f := by
  unfold moveFilter
  have hl : (chain ++ [f]).length - 1 = chain.length := by simp
  rw [hl, List.getElem?_concat_length, eraseIdx_concat]

/-! Claims. -/

/-- Claim C2: for every pair of descriptors `a` and `b`, `sortIsLess a b`
agrees with the spec's five ordering rules (`specSortIsLess`). -/
theorem claim_C2_sortIsLess_matches_spec :
    ∀ a b : Option Metadata, sortIsLess a b = specSortIsLess a b := by
  intro a b
  rcases a with _ | ⟨ga, aa⟩ <;> rcases b with _ | ⟨gb, ab⟩ <;>
    first
      | rfl
      | (cases ga <;> cases aa <;> cases gb <;> cases ab <;> rfl)

/-- Claim C10: `sortIsLess` is irreflexive — `sortIsLess a a = false` for
every descriptor `a`, including the absent descriptor. -/
theorem claim_C10_sortIsLess_irrefl :
    ∀ a : Option Metadata, sortIsLess a a = false := by
  intro a
  rcases a with _ | ⟨g, au⟩
  · rfl
  · cases g <;> cases au <;> rfl

/-- Claim C5, evaluated at the failing input: when the resolved context is a
playlist, `reset` returns right after the begin-reset notification, so the
emitted trace is `[beginReset]` alone — the matching end-reset notification
is missing (the early `return` skips `endResetModel()`).  On a non-playlist
context the full bracketing pair is emitted. -/
theorem claim_C5_reset_playlist_unbalanced :
    (reset exModel3 true true [exFil 0] exClassify).2 = [Event.beginReset] ∧
    Event.endReset ∉ (reset exModel3 true true [exFil 0] exClassify).2 ∧
    (reset exModel3 true false [exFil 0] exClassify).2 =
      [Event.beginReset, Event.endReset, Event.readyChanged] := by
  refine ⟨rfl, by decide, rfl⟩

/-- Claim C6 counterexample: row `-1` lies outside `[0, UI list length)`,
yet `remove` is not a no-op there: `-1` slips past the `row >= count` guard
and reaches `m_mltIndexMap[row]`, an out-of-range access (modelled as
`none`), instead of returning with the state unchanged. -/
theorem claim_C6_counterexample :
    remove exModel1 (-1) = none ∧ remove exModel1 (-1) ≠ some exModel1 := by
  decide

/-- Claim C6 (amended): for every row at or above the UI list length,
`remove` is a logged no-op — the UI list, the engine index map and the
engine chain are all left unchanged.  (Negative rows are not guarded.) -/
theorem claim_C6_remove_high_row_noop (m : Model) (row : Int)
    (h : (m.metaList.length : Int) ≤ row) : remove m row = some m := by
  simp [remove, h]

/-- Witness for the amended claim C6 at row 5 of a one-row model. -/
theorem claim_C6_witness :
    ((exModel1.metaList.length : Int) ≤ 5) ∧ remove exModel1 5 = some exModel1 :=
  ⟨by decide, claim_C6_remove_high_row_noop exModel1 5 (by decide)⟩

/-- Claim C7 counterexample: with pending drop row 2 cached, the remove
signal for row 2 itself — the gesture resolving onto its own row, i.e. an
abandoned drag — returns false and leaves the cached pending row at 2: it is
not reset to -1. -/
theorem claim_C7_counterexample :
    removeRows exDropModel 2 = some (exDropModel, false) ∧
    exDropModel.dropRow = 2 := by
  decide

/-- Claim C7 (amended): a remove signal for a row different from the
non-negative cached pending row resolves into exactly the single
`moveRows(row, dropRow)` call and then resets the pending row to -1; a
remove signal for the cached row itself returns false and leaves the cached
row unchanged (abandonment does not reset it). -/
theorem claim_C7_removeRows_resolves (m : Model) (row : Int)
    (hp : m.producerValid = true) (hd : 0 ≤ m.dropRow) (hne : row ≠ m.dropRow) :
    removeRows m row =
      (moveRows m row m.dropRow).map (fun p => ({ p.1 with dropRow := -1 }, p.2)) ∧
    removeRows m m.dropRow = some (m, false) := by
  constructor
  · have hc : m.producerValid = true ∧ 0 ≤ m.dropRow ∧ row ≠ m.dropRow :=
      ⟨hp, hd, hne⟩
    simp only [removeRows]
    rw [if_pos hc]
    cases hmv : moveRows m row m.dropRow with
    | none => rfl
    | some p => cases p; rfl
  · simp [removeRows]

/-- Witness for the amended claim C7: a remove signal at row 0 with pending
row 2 resolves through `moveRows 0 2`. -/
theorem claim_C7_witness :
    exDropModel.producerValid = true ∧ (0 : Int) ≤ exDropModel.dropRow ∧
    (0 : Int) ≠ exDropModel.dropRow ∧
    removeRows exDropModel 0 =
      (moveRows exDropModel 0 exDropModel.dropRow).map
        (fun p => ({ p.1 with dropRow := -1 }, p.2)) :=
  ⟨by decide, by decide, by decide,
    (claim_C7_removeRows_resolves exDropModel 0 (by decide) (by decide) (by decide)).1⟩

/-- Claim C9: whenever the checkbox-toggle write accessor completes, it makes
no structural change — the UI descriptor list, the engine index map and the
drop cache are exactly as before, the chain keeps its length — and at most
the disable flag of the engine filter at the mapped engine index is
flipped. -/
theorem claim_C9_setData_no_structural_change (m : Model) (row : Int)
    (m' : Model) (b : Bool) (h : setData m row true = some (m', b)) :
    m'.metaList = m.metaList ∧ m'.mltIndexMap = m.mltIndexMap ∧
    m'.dropRow = m.dropRow ∧ m'.chain.length = m.chain.length ∧
    (m'.chain = m.chain ∨
      ∃ i f, m.mltIndexMap[row.toNat]? = some i ∧ m.chain[i]? = some f ∧
        m'.chain = m.chain.set i (flipDisable f)) := by
  simp only [setData] at h
  rw [if_pos trivial] at h
  split at h
  · split at h
    · split at h
      · exact absurd h (by simp)
      · rename_i mltIndex hmap
        split at h
        · rename_i f hchain
          simp only [Option.some.injEq, Prod.mk.injEq] at h
          obtain ⟨h1, _⟩ := h
          subst h1
          exact ⟨rfl, rfl, rfl, by simp, Or.inr ⟨mltIndex, f, hmap, hchain, rfl⟩⟩
        · simp only [Option.some.injEq, Prod.mk.injEq] at h
          obtain ⟨h1, _⟩ := h
          subst h1
          exact ⟨rfl, rfl, rfl, rfl, Or.inl rfl⟩
    · exact absurd h (by simp)
  · simp only [Option.some.injEq, Prod.mk.injEq] at h
    obtain ⟨h1, _⟩ := h
    subst h1
    exact ⟨rfl, rfl, rfl, rfl, Or.inl rfl⟩

/-- Witness for claim C9: toggling row 1 of the three-row model flips only
that filter's disable flag. -/
theorem claim_C9_witness :
    setData exModel3 1 true = some (exFlipped, true) ∧
    exFlipped.metaList = exModel3.metaList ∧
    exFlipped.mltIndexMap = exModel3.mltIndexMap :=
  ⟨by decide,
    (claim_C9_setData_no_structural_change exModel3 1 exFlipped true (by decide)).1,
    (claim_C9_setData_no_structural_change exModel3 1 exFlipped true (by decide)).2.1⟩

/-- Claim C1: starting from any state in which the UI-list and index-map
lengths are equal, every completed add, remove or move operation leaves
them equal. -/
theorem claim_C1_lengths_preserved (m : Model)
    (h : m.metaList.length = m.mltIndexMap.length) :
    (∀ meta f v m' r, add m meta f v = some (m', r) →
       m'.metaList.length = m'.mltIndexMap.length) ∧
    (∀ row m', remove m row = some m' →
       m'.metaList.length = m'.mltIndexMap.length) ∧
    (∀ s d m' b, moveRows m s d = some (m', b) →
       m'.metaList.length = m'.mltIndexMap.length) := by
  refine ⟨?_, ?_, ?_⟩
  · intro meta f v m' r hadd
    cases v with
    | false =>
      simp only [add, Bool.false_eq_true, if_false] at hadd
      simp only [Option.some.injEq, Prod.mk.injEq] at hadd
      obtain ⟨h1, _⟩ := hadd
      subst h1
      exact h
    | true =>
      simp only [add] at hadd
      rw [if_pos trivial] at hadd
      split at hadd
      · exact absurd hadd (by simp)
      · rename_i mltIndex heq
        simp only [Option.some.injEq, Prod.mk.injEq] at hadd
        obtain ⟨h1, _⟩ := hadd
        subst h1
        have hp := insertPos_le m.metaList meta
        have hp2 : insertPos m.metaList meta ≤
            (m.mltIndexMap.map fun j => if mltIndex ≤ j then j + 1 else j).length := by
          rw [List.length_map]; omega
        dsimp only
        rw [List.length_insertIdx _ _ hp, List.length_insertIdx _ _ hp2,
          List.length_map]
        omega
  · intro row m' hrem
    simp only [remove] at hrem
    split at hrem
    · simp only [Option.some.injEq] at hrem
      subst hrem
      exact h
    · rename_i hhigh
      split at hrem
      · rename_i hnn
        split at hrem
        · exact absurd hrem (by simp)
        · rename_i mltIndex heq
          simp only [Option.some.injEq] at hrem
          subst hrem
          have hrowm : row.toNat < m.mltIndexMap.length :=
            (List.getElem?_eq_some_iff.mp heq).1
          have hrowl : row.toNat < m.metaList.length := by omega
          dsimp only
          rw [List.length_map, List.length_eraseIdx_of_lt hrowm,
            List.length_eraseIdx_of_lt hrowl]
          omega
      · exact absurd hrem (by simp)
  · intro s d m' b hmv
    simp only [moveRows] at hmv
    split at hmv
    · simp only [Option.some.injEq, Prod.mk.injEq] at hmv
      obtain ⟨h1, _⟩ := hmv
      subst h1
      exact h
    · split at hmv
      · simp only [Option.some.injEq, Prod.mk.injEq] at hmv
        obtain ⟨h1, _⟩ := hmv
        subst h1
        exact h
      · split at hmv
        · simp only [Option.some.injEq, Prod.mk.injEq] at hmv
          obtain ⟨h1, _⟩ := hmv
          subst h1
          exact h
        · generalize (if s < d then d - 1 else d).toNat = t at hmv
          split at hmv
          · rename_i mltSrcIndex mltDstIndex hsrc hdst
            split at hmv
            · exact absurd hmv (by simp)
            · rename_i metaMoved hlm
              split at hmv
              · rename_i hdle
                simp only [Option.some.injEq, Prod.mk.injEq] at hmv
                obtain ⟨h1, _⟩ := hmv
                subst h1
                have hsrcb : s.toNat < m.mltIndexMap.length :=
                  (List.getElem?_eq_some_iff.mp hsrc).1
                have hml := length_listMove _ _ _ _ hlm
                rw [List.length_map, List.length_eraseIdx_of_lt hsrcb] at hdle
                dsimp only
                rw [List.length_insertIdx _ _
                    (by rw [List.length_map, List.length_eraseIdx_of_lt hsrcb]; omega),
                  List.length_map, List.length_eraseIdx_of_lt hsrcb, hml]
                omega
              · exact absurd hmv (by simp)
          · exact absurd hmv (by simp)

/-- Witness for claim C1: adding a video filter to the three-row model keeps
the lengths equal. -/
theorem claim_C1_witness :
    exModel3.metaList.length = exModel3.mltIndexMap.length ∧
    exAdded.metaList.length = exAdded.mltIndexMap.length :=
  ⟨by decide,
    (claim_C1_lengths_preserved exModel3 (by decide)).1 exVideo (exFil 7) true
      exAdded 2 (by decide)⟩

/-- Claim C3: for a successfully constructed filter, `add` completes,
inserts the new descriptor at the UI position given by the spec's backward
scan (`specInsertPos`), records at that position the target engine index
given by the spec's rule (`specMltIndex`), and returns that UI position; on
construction failure it returns -1 with the state unchanged. -/
theorem claim_C3_add_matches_spec (m : Model) (meta : Metadata) (f : Filter)
    (h : m.metaList.length = m.mltIndexMap.length) :
    (∃ m' r, add m meta f true = some (m', r)) ∧
    (∀ m' r, add m meta f true = some (m', r) →
       r = (specInsertPos m.metaList meta : Int) ∧
       m'.metaList = m.metaList.insertIdx (specInsertPos m.metaList meta) (some meta) ∧
       m'.mltIndexMap[specInsertPos m.metaList meta]? =
         some (specMltIndex m.mltIndexMap (specInsertPos m.metaList meta))) ∧
    add m meta f false = some (m, -1) := by
  have hopt := add_mltIndexOpt_eq m meta h
  have hpos := insertPos_eq_specInsertPos m.metaList meta
  have hple := insertPos_le m.metaList meta
  refine ⟨?_, ?_, ?_⟩
  · simp only [add]
    rw [if_pos trivial, hopt]
    exact ⟨_, _, rfl⟩
  · intro m' r hadd
    simp only [add] at hadd
    rw [if_pos trivial, hopt] at hadd
    simp only [Option.some.injEq, Prod.mk.injEq] at hadd
    obtain ⟨h1, h2⟩ := hadd
    subst h1
    refine ⟨by rw [← h2, hpos], by dsimp only; rw [hpos], ?_⟩
    dsimp only
    have hm1 : insertPos m.metaList meta ≤
        (m.mltIndexMap.map fun j =>
          if specMltIndex m.mltIndexMap (insertPos m.metaList meta) ≤ j
          then j + 1 else j).length := by
      rw [List.length_map]; omega
    have hlt : insertPos m.metaList meta <
        ((m.mltIndexMap.map fun j =>
          if specMltIndex m.mltIndexMap (insertPos m.metaList meta) ≤ j
          then j + 1 else j).insertIdx (insertPos m.metaList meta)
            (specMltIndex m.mltIndexMap (insertPos m.metaList meta))).length := by
      rw [List.length_insertIdx _ _ hm1]
      omega
    rw [← hpos, List.getElem?_eq_getElem hlt,
      List.getElem_insertIdx_self _ _ _ hm1]
  · simp only [add, Bool.false_eq_true, if_false]

/-- Witness for claim C3: adding a video filter to the three-row model
lands at UI row 2 with engine index 2. -/
theorem claim_C3_witness :
    exModel3.metaList.length = exModel3.mltIndexMap.length ∧
    ((2 : Int) = (specInsertPos exModel3.metaList exVideo : Int) ∧
     exAdded.metaList =
       exModel3.metaList.insertIdx (specInsertPos exModel3.metaList exVideo)
         (some exVideo) ∧
     exAdded.mltIndexMap[specInsertPos exModel3.metaList exVideo]? =
       some (specMltIndex exModel3.mltIndexMap
         (specInsertPos exModel3.metaList exVideo))) :=
  ⟨by decide,
    (claim_C3_add_matches_spec exModel3 exVideo (exFil 7) (by decide)).2.1
      exAdded 2 (by decide)⟩

/-- Claim C4: for every valid single-row move, the index map after the
engine-side move is exactly the spec's recomputation (`specMoveRemap`), the
descriptor list is the corresponding `QList::move` of the old one, and the
chain is the corresponding engine move; and in particular on the list
[A(engine 0), B(engine 1), C(engine 2)], moving row 0 to row 2 yields UI
order [B, C, A] with each row's engine index pointing at that row's filter
in post-move engine storage. -/
theorem claim_C4_moveRows_matches_spec :
    (∀ (m : Model) (s d : Int) (mltSrc mltDst : Nat),
       m.producerValid = true → 0 ≤ s → 0 ≤ d → ¬(s ≤ d ∧ d ≤ s + 1) →
       m.mltIndexMap[s.toNat]? = some mltSrc →
       m.mltIndexMap[(if s < d then d - 1 else d).toNat]? = some mltDst →
       s.toNat < m.metaList.length →
       (if s < d then d - 1 else d).toNat ≤ m.metaList.length - 1 →
       m.metaList.length = m.mltIndexMap.length →
       ∃ m', moveRows m s d = some (m', true) ∧
         m'.mltIndexMap = specMoveRemap m.mltIndexMap s.toNat
           (if s < d then d - 1 else d).toNat mltSrc mltDst ∧
         listMove m.metaList s.toNat (if s < d then d - 1 else d).toNat =
           some m'.metaList ∧
         m'.chain = moveFilter m.chain mltSrc mltDst) ∧
    (∃ mv, move exModel3 0 2 = some (mv, true) ∧
       mv.metaList = [some exVideo, some exAudio, some exGPU] ∧
       mv.mltIndexMap = [0, 1, 2] ∧
       mv.chain = [exFil 1, exFil 2, exFil 0] ∧
       mv.chain.getD (mv.mltIndexMap.getD 0 99) (exFil 99) = exFil 1 ∧
       mv.chain.getD (mv.mltIndexMap.getD 1 99) (exFil 99) = exFil 2 ∧
       mv.chain.getD (mv.mltIndexMap.getD 2 99) (exFil 99) = exFil 0) := by
  constructor
  · intro m s d mltSrc mltDst hpv hs hd hno hsrc hdst hsb hdb hlen
    have hsrcb : s.toNat < m.mltIndexMap.length :=
      (List.getElem?_eq_some_iff.mp hsrc).1
    have hget : m.metaList[s.toNat]? = some (m.metaList[s.toNat]) :=
      List.getElem?_eq_getElem hsb
    have hlm : listMove m.metaList s.toNat (if s < d then d - 1 else d).toNat =
        some ((m.metaList.eraseIdx s.toNat).insertIdx
          (if s < d then d - 1 else d).toNat (m.metaList[s.toNat])) := by
      simp only [listMove, hget]
      rw [if_pos (by rw [List.length_eraseIdx_of_lt hsb]; omega)]
    refine ⟨{ m with
        chain := moveFilter m.chain mltSrc mltDst
        mltIndexMap := specMoveRemap m.mltIndexMap s.toNat
          (if s < d then d - 1 else d).toNat mltSrc mltDst
        metaList := (m.metaList.eraseIdx s.toNat).insertIdx
          (if s < d then d - 1 else d).toNat (m.metaList[s.toNat]) },
      ?_, rfl, ?_, rfl⟩
    · simp only [moveRows]
      rw [if_neg (by simp [hpv]), if_neg (by omega), if_neg hno, hsrc, hdst]
      simp only [hlm]
      rw [if_pos (by rw [List.length_map, List.length_eraseIdx_of_lt hsrcb]; omega)]
      simp only [specMoveRemap]
    · rw [hlm]
  · refine ⟨⟨[some exVideo, some exAudio, some exGPU], [0, 1, 2],
      [exFil 1, exFil 2, exFil 0], -1, true⟩, ?_, rfl, rfl, rfl, rfl, rfl, rfl⟩
    decide

/-- Witness for claim C4: the general part applied to moving row 0 of the
three-row model to the end (`moveRows` destination 3, the call produced by
`move(0, 2)`). -/
theorem claim_C4_witness :
    ∃ m', moveRows exModel3 0 3 = some (m', true) ∧
      m'.mltIndexMap = specMoveRemap exModel3.mltIndexMap (0 : Int).toNat
        (if (0 : Int) < 3 then (3 : Int) - 1 else 3).toNat 0 2 ∧
      listMove exModel3.metaList (0 : Int).toNat
        (if (0 : Int) < 3 then (3 : Int) - 1 else 3).toNat = some m'.metaList ∧
      m'.chain = moveFilter exModel3.chain 0 2 :=
  claim_C4_moveRows_matches_spec.1 exModel3 0 3 0 2 (by decide) (by decide)
    (by decide) (by decide) (by decide) (by decide) (by decide) (by decide)
    (by decide)

/-- Claim C8: from any well-formed state (parallel lengths equal, every map
entry a valid engine-chain position), `add` of a successfully constructed
filter followed immediately by `remove` at the returned row restores the
prior engine-storage chain: the filter count is back to what it was and the
remaining filters keep their exact order. -/
theorem claim_C8_add_then_remove_restores (m : Model) (meta : Metadata) (f : Filter)
    (hlen : m.metaList.length = m.mltIndexMap.length)
    (hidx : ∀ j ∈ m.mltIndexMap, j < m.chain.length) :
    ∃ m' r, add m meta f true = some (m', r) ∧
      ∃ m'', remove m' r = some m'' ∧
        m''.chain.length = m.chain.length ∧ m''.chain = m.chain := by
  have hopt := add_mltIndexOpt_eq m meta hlen
  have hple := insertPos_le m.metaList meta
  have hmle : specMltIndex m.mltIndexMap (insertPos m.metaList meta) ≤
      m.chain.length :=
    specMltIndex_le_chain m (insertPos m.metaList meta) (by omega) hidx
  set pos := insertPos m.metaList meta with hposdef
  set mlt := specMltIndex m.mltIndexMap pos with hmltdef
  set map1 := m.mltIndexMap.map (fun j => if mlt ≤ j then j + 1 else j) with hmap1
  have hadd : add m meta f true =
      some ({ m with
                chain := m.chain.insertIdx mlt f
                mltIndexMap := map1.insertIdx pos mlt
                metaList := m.metaList.insertIdx pos (some meta) },
            (pos : Int)) := by
    simp only [add]
    rw [if_pos trivial, hopt]
    simp only [moveFilter_append]
  refine ⟨_, _, hadd, ?_⟩
  have hm1len : pos ≤ map1.length := by
    rw [hmap1, List.length_map]; omega
  have hmllen : (m.metaList.insertIdx pos (some meta)).length =
      m.metaList.length + 1 := List.length_insertIdx _ _ hple
  have hgetm : (map1.insertIdx pos mlt)[(pos : Int).toNat]? = some mlt := by
    have hlt : pos < (map1.insertIdx pos mlt).length := by
      rw [List.length_insertIdx _ _ hm1len]; omega
    rw [Int.toNat_ofNat, List.getElem?_eq_getElem hlt,
      List.getElem_insertIdx_self _ _ _ hm1len]
  refine ⟨{ metaList := (m.metaList.insertIdx pos (some meta)).eraseIdx pos
            mltIndexMap := ((map1.insertIdx pos mlt).eraseIdx pos).map
              (fun j => if mlt < j then j - 1 else j)
            chain := (m.chain.insertIdx mlt f).eraseIdx mlt
            dropRow := m.dropRow
            producerValid := m.producerValid }, ?_, ?_, ?_⟩
  · simp only [remove]
    rw [if_neg (by omega), if_pos (by omega), hgetm]
    rfl
  · dsimp only
    rw [List.eraseIdx_insertIdx]
  · dsimp only
    rw [List.eraseIdx_insertIdx]

/-- Witness for claim C8: add-then-remove of a video filter on the
three-row model restores the three-filter chain. -/
theorem claim_C8_witness :
    exModel3.metaList.length = exModel3.mltIndexMap.length ∧
    (∀ j ∈ exModel3.mltIndexMap, j < exModel3.chain.length) ∧
    (∃ m' r, add exModel3 exVideo (exFil 7) true = some (m', r) ∧
      ∃ m'', remove m' r = some m'' ∧
        m''.chain.length = exModel3.chain.length ∧ m''.chain = exModel3.chain) :=
  ⟨by decide, by decide,
    claim_C8_add_then_remove_restores exModel3 exVideo (exFil 7)
      (by decide) (by decide)⟩

end AttachedFiltersModel
